import Mathlib

/-!
Verification development for the people-api repository: a shallow embedding of
the person-aggregate engine (REST route handlers in `routes/people.js`, GraphQL
resolvers in `graphql/resolvers.js`, storage schema in `migrations`) together
with theorems settling the specification claims.

Conventions of the embedding:
* uuids are modelled as `Nat` (opaque identifiers);
* timestamps (`created_at`, `updated_at`, Postgres `now()`) are modelled as
  milliseconds since the epoch (`Nat`), supplied to each mutating operation as
  an explicit `now` argument (the database clock made explicit);
* the ambient JavaScript clock read by `new Date()` is modelled as an explicit
  `DateTime` argument (a UTC calendar date plus time-of-day fields);
* SQL `text` is `String`; SQL text ordering is the byte-lexicographic order
  `lexLe` below (a total order, which is all the code relies on);
* a database transaction is modelled by returning the pre-state on every error
  path (rollback) and the fully updated state on commit; the GraphQL resolvers,
  which issue their statements outside any transaction, instead return the
  state reached by the statements that succeeded before the failing one;
* errors carry the taxonomy of the engine: `validation`, `referential`,
  `conflict`, `notFound`; a storage error that a surface re-raises without
  categorising it (no `e.code === "23505"` handler, FK / check-constraint
  violations) is `internal`.
-/

namespace PeopleApi

/-- A calendar date (no time of day), as stored in the `birthday` column. -/
structure CalDate where
  year : Int
  month : Nat
  day : Nat
deriving DecidableEq, Repr

/-- A reading of the ambient UTC clock (`new Date()`): the calendar date
components consulted by `getUTCFullYear/getUTCMonth/getUTCDate` plus
time-of-day components that the code never reads. -/
structure DateTime where
  year : Int
  month : Nat
  day : Nat
  hour : Nat
  minute : Nat
deriving DecidableEq, Repr

/-- The calendar-date part of a clock reading. -/
def DateTime.toDate (t : DateTime) : CalDate := ⟨t.year, t.month, t.day⟩

/-- `computeAge` from `routes/people.js` lines 42-49 (duplicated verbatim in
`graphql/resolvers.js` lines 8-15).  The JavaScript function takes only the
birthday and reads the ambient clock via `new Date()`; that clock reading is
the explicit `today` argument here. -/
def computeAge (bday : Option CalDate) (today : DateTime) : Option Int :=
  match bday with
  | none => none
  | some b =>
      let years : Int := today.year - b.year
      let m : Int := (today.month : Int) - (b.month : Int)
      let years :=
        if m < 0 ∨ (m = 0 ∧ (today.day : Int) < (b.day : Int)) then years - 1 else years
      if 0 ≤ years ∧ years ≤ 150 then some years else none

/-- Whole elapsed years between two calendar dates, worded as in the spec
(§4.3): difference of years, minus one when today's month/day precedes the
birthday's month/day. -/
def wholeElapsedYears (b t : CalDate) : Int :=
  t.year - b.year - (if t.month < b.month ∨ (t.month = b.month ∧ t.day < b.day) then 1 else 0)

/-- The age function as the spec words it: absent birthday gives absent age,
otherwise whole elapsed years, discarded when outside [0,150]. -/
def specAge (bday : Option CalDate) (t : CalDate) : Option Int :=
  match bday with
  | none => none
  | some b =>
      let y := wholeElapsedYears b t
      if 0 ≤ y ∧ y ≤ 150 then some y else none

/-- C4: for every birthday and every clock reading, `computeAge` returns the
number of whole elapsed years between the birthday and the clock's calendar
date, subtracting one year when today's month/day precedes the birthday's
month/day; it is absent when the birthday is absent, and absent whenever the
computed value lies outside [0,150]. -/
theorem computeAge_eq_specAge (bday : Option CalDate) (today : DateTime) :
    computeAge bday today = specAge bday today.toDate := by
  cases bday with
  | none => rfl
  | some b =>
      simp only [computeAge, specAge, wholeElapsedYears, DateTime.toDate]
      have hcond : ((today.month : Int) - (b.month : Int) < 0 ∨
          ((today.month : Int) - (b.month : Int) = 0 ∧ (today.day : Int) < (b.day : Int))) ↔
          (today.month < b.month ∨ (today.month = b.month ∧ today.day < b.day)) := by
        omega
      by_cases h : today.month < b.month ∨ (today.month = b.month ∧ today.day < b.day)
      · rw [if_pos (hcond.mpr h), if_pos h]
      · rw [if_neg (fun hh => h (hcond.mp hh)), if_neg h]
        simp only [sub_zero]

/-- C5 counterexample: the source `computeAge` reads the ambient clock inside
the function body (`const today = new Date()` at `routes/people.js` line 44),
so two invocations with the same birthday performed at different wall-clock
moments can return different results. -/
theorem computeAge_wallclock_dependent :
    computeAge (some ⟨2000, 6, 15⟩) ⟨2010, 6, 14, 0, 0⟩ ≠
      computeAge (some ⟨2000, 6, 15⟩) ⟨2010, 6, 16, 0, 0⟩ := by
  decide

/-- C5 (amended): `computeAge` does not take today as a parameter — it reads
the ambient clock — but it is deterministic in the birthday together with the
clock's UTC calendar date: it never consults time-of-day, so two invocations
with equal birthday whose clock readings fall on the same UTC calendar date
return equal results. -/
theorem computeAge_determined_by_calendar_date (bday : Option CalDate) (t1 t2 : DateTime)
    (h : t1.toDate = t2.toDate) : computeAge bday t1 = computeAge bday t2 := by
  obtain ⟨y1, m1, d1, hh1, mm1⟩ := t1
  obtain ⟨y2, m2, d2, hh2, mm2⟩ := t2
  simp only [DateTime.toDate, CalDate.mk.injEq] at h
  obtain ⟨hy, hm, hd⟩ := h
  subst hy; subst hm; subst hd
  rfl

/-- Witness for the amended C5 theorem: same birthday, same UTC date, distinct
times of day. -/
theorem computeAge_determined_by_calendar_date_witness :
    computeAge (some ⟨2000, 6, 15⟩) ⟨2010, 6, 16, 3, 0⟩ =
      computeAge (some ⟨2000, 6, 15⟩) ⟨2010, 6, 16, 17, 30⟩ :=
  computeAge_determined_by_calendar_date (some ⟨2000, 6, 15⟩) ⟨2010, 6, 16, 3, 0⟩
    ⟨2010, 6, 16, 17, 30⟩ rfl

/-! ### Text ordering and the `order by email asc` sort

Postgres orders the `email` text column totally; the embedding uses
byte-lexicographic order on the characters, computed by structural recursion so
that it evaluates inside the kernel. -/

/-- Lexicographic less-or-equal on character lists (the model of SQL text
ordering used by `order by c.email asc`). -/
def lexLe : List Char → List Char → Bool
  | [], _ => true
  | _ :: _, [] => false
  | a :: as, b :: bs =>
      if a.toNat < b.toNat then true
      else if b.toNat < a.toNat then false
      else lexLe as bs

/-- Less-or-equal on emails. -/
def emailLe (a b : String) : Bool := lexLe a.data b.data

/-- Strictly-less on emails. -/
def emailLt (a b : String) : Bool := emailLe a b && !(a == b)

theorem lexLe_total (a b : List Char) : lexLe a b = true ∨ lexLe b a = true := by
  induction a generalizing b with
  | nil => exact Or.inl rfl
  | cons x xs ih =>
      cases b with
      | nil => exact Or.inr rfl
      | cons y ys =>
          simp only [lexLe]
          rcases Nat.lt_trichotomy x.toNat y.toNat with h | h | h
          · left; rw [if_pos h]
          · rw [if_neg (by omega), if_neg (by omega), if_neg (by omega), if_neg (by omega)]
            exact ih ys
          · right; rw [if_pos h]

theorem lexLe_trans (a b c : List Char) (hab : lexLe a b = true) (hbc : lexLe b c = true) :
    lexLe a c = true := by
  induction a generalizing b c with
  | nil => rfl
  | cons x xs ih =>
      cases b with
      | nil => simp [lexLe] at hab
      | cons y ys =>
          cases c with
          | nil => simp [lexLe] at hbc
          | cons z zs =>
              simp only [lexLe] at hab hbc ⊢
              by_cases hxy : x.toNat < y.toNat
              · by_cases hyz : y.toNat < z.toNat
                · rw [if_pos (by omega)]
                · rw [if_neg hyz] at hbc
                  by_cases hzy : z.toNat < y.toNat
                  · rw [if_pos hzy] at hbc; exact absurd hbc (by simp)
                  · rw [if_pos (by omega)]
              · rw [if_neg hxy] at hab
                by_cases hyx : y.toNat < x.toNat
                · rw [if_pos hyx] at hab; exact absurd hab (by simp)
                · rw [if_neg hyx] at hab
                  by_cases hyz : y.toNat < z.toNat
                  · rw [if_pos (by omega)]
                  · rw [if_neg hyz] at hbc
                    by_cases hzy : z.toNat < y.toNat
                    · rw [if_pos hzy] at hbc; exact absurd hbc (by simp)
                    · rw [if_neg hzy] at hbc
                      rw [if_neg (by omega), if_neg (by omega)]
                      exact ih ys zs hab hbc

theorem emailLe_total (a b : String) : emailLe a b = true ∨ emailLe b a = true :=
  lexLe_total a.data b.data

theorem emailLe_trans (a b c : String) (hab : emailLe a b = true) (hbc : emailLe b c = true) :
    emailLe a c = true :=
  lexLe_trans a.data b.data c.data hab hbc

/-! ### Storage model

The `person` table and the `person_contacts` link table from the migration:
`person(id, name, surname, gender, birthday, phone, email unique, created_at,
updated_at)` and `person_contacts(person_id, contact_id)` with primary key on
the pair, both columns referencing `person(id)` with `on delete cascade`, and
`check (person_id <> contact_id)`. -/

/-- A row of the `person` table. -/
structure PersonRow where
  id : Nat
  name : String
  surname : String
  gender : Option String
  birthday : Option CalDate
  phone : Option String
  email : String
  created_at : Nat
  updated_at : Nat
deriving DecidableEq, Repr

/-- The database state: the `person` table and the `person_contacts` table
(rows `(person_id, contact_id)`). -/
structure Store where
  persons : List PersonRow
  links : List (Nat × Nat)
deriving DecidableEq, Repr

/-- The invariants the storage schema enforces: primary-key uniqueness of
`person.id`, the unique constraint on `person.email`, the composite primary
key of the link table, its `person_id <> contact_id` check, and both foreign
keys. -/
def Store.WF (st : Store) : Prop :=
  (st.persons.map PersonRow.id).Nodup ∧
  (st.persons.map PersonRow.email).Nodup ∧
  st.links.Nodup ∧
  (∀ l ∈ st.links, l.1 ≠ l.2 ∧
    st.persons.any (fun p => p.id == l.1) ∧ st.persons.any (fun p => p.id == l.2))

instance (st : Store) : Decidable st.WF := by
  unfold Store.WF
  infer_instance

/-- `select * from person where id=$1` (first row). -/
def findPerson (st : Store) (id : Nat) : Option PersonRow :=
  st.persons.find? (fun p => p.id == id)

/-- Insert a row into a list kept ascending by email. -/
def insertByEmail (p : PersonRow) : List PersonRow → List PersonRow
  | [] => [p]
  | q :: qs => if emailLe p.email q.email then p :: q :: qs else q :: insertByEmail p qs

/-- The model of `order by email asc` over the `person` table: an insertion
sort by the email ordering. -/
def sortByEmail (l : List PersonRow) : List PersonRow := l.foldr insertByEmail []

theorem insertByEmail_perm (p : PersonRow) (l : List PersonRow) :
    List.Perm (insertByEmail p l) (p :: l) := by
  induction l with
  | nil => exact List.Perm.refl _
  | cons q qs ih =>
      simp only [insertByEmail]
      by_cases h : emailLe p.email q.email = true
      · rw [if_pos h]
      · rw [if_neg h]
        exact ((ih.cons q).trans (List.Perm.swap p q qs))

theorem sortByEmail_perm (l : List PersonRow) : List.Perm (sortByEmail l) l := by
  induction l with
  | nil => exact List.Perm.refl _
  | cons q qs ih =>
      exact (insertByEmail_perm q (sortByEmail qs)).trans (ih.cons q)

theorem mem_insertByEmail {x p : PersonRow} {l : List PersonRow}
    (h : x ∈ insertByEmail p l) : x = p ∨ x ∈ l :=
  match (insertByEmail_perm p l).mem_iff.mp h with
  | List.Mem.head _ => Or.inl rfl
  | List.Mem.tail _ h => Or.inr h

theorem insertByEmail_pairwise (p : PersonRow) (l : List PersonRow)
    (h : l.Pairwise (fun a b => emailLe a.email b.email = true)) :
    (insertByEmail p l).Pairwise (fun a b => emailLe a.email b.email = true) := by
  induction l with
  | nil => simp [insertByEmail]
  | cons q qs ih =>
      rw [List.pairwise_cons] at h
      obtain ⟨hq, hqs⟩ := h
      simp only [insertByEmail]
      by_cases hle : emailLe p.email q.email = true
      · rw [if_pos hle]
        refine List.Pairwise.cons ?_ (List.Pairwise.cons hq hqs)
        intro x hx
        cases hx with
        | head => exact hle
        | tail _ hx => exact emailLe_trans _ _ _ hle (hq x hx)
      · rw [if_neg hle]
        refine List.Pairwise.cons ?_ (ih hqs)
        intro x hx
        rcases mem_insertByEmail hx with hx | hx
        · rcases emailLe_total p.email q.email with hh | hh
          · exact absurd hh hle
          · rw [hx]
            exact hh
        · exact hq x hx

theorem sortByEmail_pairwise (l : List PersonRow) :
    (sortByEmail l).Pairwise (fun a b => emailLe a.email b.email = true) := by
  induction l with
  | nil => exact List.Pairwise.nil
  | cons q qs ih => exact insertByEmail_pairwise q (sortByEmail qs) ih

/-- Decidable equality of operation results, so that concrete runs can be
checked by evaluation. -/
instance {ε α : Type} [DecidableEq ε] [DecidableEq α] : DecidableEq (Except ε α) := fun a b =>
  match a, b with
  | .error x, .error y =>
      if h : x = y then isTrue (congrArg Except.error h)
      else isFalse (fun hh => h (by cases hh; rfl))
  | .error _, .ok _ => isFalse (fun hh => by cases hh)
  | .ok _, .error _ => isFalse (fun hh => by cases hh)
  | .ok x, .ok y =>
      if h : x = y then isTrue (congrArg Except.ok h)
      else isFalse (fun hh => h (by cases hh; rfl))

/-! ### DTOs and the error taxonomy -/

/-- Error taxonomy of the engine.  The REST handlers produce `validation`
(schema rejection), `referential` (`badRequest` on a bad contact id),
`conflict` (`e.code === "23505"` mapped to 409), `notFound`; `internal` stands
for a storage error a surface re-raises without categorising it (the GraphQL
resolvers catch nothing, and FK / check-constraint violations are uncaught on
both surfaces). -/
inductive ApiError where
  | validation
  | referential
  | conflict
  | notFound
  | internal
deriving DecidableEq, Repr

/-- A contact summary as selected by the contacts join
(`select c.id, c.name, c.surname, c.email ... order by c.email asc`). -/
structure ContactDTO where
  id : Nat
  name : String
  surname : String
  email : String
deriving DecidableEq, Repr

/-- The response body built by `toDTO` (`routes/people.js` lines 55-75 and
`graphql/resolvers.js` lines 18-33).  `birthday` stays a typed calendar date
here; its ISO rendering is protocol envelope.  `created`/`modified` are the
row timestamps. -/
structure PersonDTO where
  id : Nat
  name : String
  surname : String
  age : Option Int
  gender : Option String
  birthday : Option CalDate
  phone : Option String
  email : String
  contacts : List ContactDTO
  created : Nat
  modified : Nat
deriving DecidableEq, Repr

def toContactDTO (c : PersonRow) : ContactDTO :=
  { id := c.id, name := c.name, surname := c.surname, email := c.email }

/-- `toDTO` from `routes/people.js` lines 55-75: maps a row plus its resolved
contact rows to the response body; `age` is derived from `birthday` and the
ambient clock reading `today`. -/
def toDTO (today : DateTime) (row : PersonRow) (contacts : List PersonRow) : PersonDTO :=
  { id := row.id, name := row.name, surname := row.surname,
    age := computeAge row.birthday today, gender := row.gender,
    birthday := row.birthday, phone := row.phone, email := row.email,
    contacts := contacts.map toContactDTO,
    created := row.created_at, modified := row.updated_at }

/-- The contacts join of both surfaces: every person row linked from `id`,
ordered ascending by email. -/
def contactsRowsOf (st : Store) (id : Nat) : List PersonRow :=
  (sortByEmail st.persons).filter (fun c => st.links.contains (id, c.id))

/-- The single-item fingerprint of `GET /people/:id`
(`routes/people.js` line 157): the quoted millisecond value of `updated_at`. -/
def etagSingle (p : PersonRow) : String := "\"" ++ toString p.updated_at ++ "\""

/-- The referential check of both mutating routes: `select id from person
where id = any($1::uuid[])` returns fewer rows than the id list names (row
count over distinct stored ids versus list length). -/
def missingContacts (persons : List PersonRow) (cs : List Nat) : Bool :=
  (persons.filter (fun q => cs.contains q.id)).length != cs.length

/-- The storage unique-constraint test the dynamic `update` statement can
trip: some other row already holds the requested email. -/
def emailConflict (persons : List PersonRow) (i : Nat) (e? : Option String) : Bool :=
  match e? with
  | some e => persons.any (fun q => q.id != i && q.email == e)
  | none => false

/-! ### Create -/

/-- The validated `POST /people` body (`personSchema`): `name`, `surname`,
`email` required; `gender`, `birthday`, `phone` nullable; `contacts` an
optional list of uuids (`none` covers both an absent and a `null` field, which
the handler treats alike via `Array.isArray`). -/
structure CreateBody where
  name : String
  surname : String
  gender : Option String
  birthday : Option CalDate
  phone : Option String
  email : String
  contacts : Option (List Nat)
deriving DecidableEq, Repr

/-- The `POST /people` route (`routes/people.js` lines 78-139).  The leading
`Nodup` test models the AJV `uniqueItems` gate that runs before the handler;
the rest is the handler's transaction: insert the row (a duplicate email
raises the unique violation, caught and mapped to `conflict`), count the
requested contact ids against the `person` table (`referential` on mismatch,
rolling back the insert), insert the links (a self-link would violate the
check constraint and be re-raised uncategorised), commit.  Every error path
returns the pre-state: the transaction rolls back. -/
def restCreate (newId now : Nat) (today : DateTime) (st : Store) (b : CreateBody) :
    Store × Except ApiError PersonDTO :=
  if ¬ (b.contacts.getD []).Nodup then (st, .error .validation)
  else if st.persons.any (fun p => p.email == b.email) then (st, .error .conflict)
  else
    let row : PersonRow :=
      { id := newId, name := b.name, surname := b.surname, gender := b.gender,
        birthday := b.birthday, phone := b.phone, email := b.email,
        created_at := now, updated_at := now }
    let st1 : Store := { st with persons := st.persons ++ [row] }
    let cs := b.contacts.getD []
    if cs.isEmpty then
      (st1, .ok (toDTO today row (contactsRowsOf st1 newId)))
    else if missingContacts st1.persons cs then
      (st, .error .referential)
    else if cs.contains newId then (st, .error .internal)
    else
      let st2 : Store := { st1 with links := st.links ++ cs.map (fun c => (newId, c)) }
      (st2, .ok (toDTO today row (contactsRowsOf st2 newId)))

/-- `Mutation.createPerson` (`graphql/resolvers.js` lines 70-95).  No
transaction is opened and no error is caught: a duplicate email surfaces as
the raw unique violation (`internal`, state unchanged — the single insert is
atomic), and a failing `person_contacts` insert (missing contact id, duplicate
id, or self-link) surfaces raw while the already-committed person row
persists. -/
def gqlCreate (newId now : Nat) (today : DateTime) (st : Store) (b : CreateBody) :
    Store × Except ApiError PersonDTO :=
  if st.persons.any (fun p => p.email == b.email) then (st, .error .internal)
  else
    let row : PersonRow :=
      { id := newId, name := b.name, surname := b.surname, gender := b.gender,
        birthday := b.birthday, phone := b.phone, email := b.email,
        created_at := now, updated_at := now }
    let st1 : Store := { st with persons := st.persons ++ [row] }
    let cs := b.contacts.getD []
    if cs.isEmpty then
      (st1, .ok (toDTO today row (contactsRowsOf st1 newId)))
    else if cs.all (fun c => st1.persons.any (fun p => p.id == c)) ∧ cs.Nodup ∧
        ¬ cs.contains newId then
      let st2 : Store := { st1 with links := st.links ++ cs.map (fun c => (newId, c)) }
      (st2, .ok (toDTO today row (contactsRowsOf st2 newId)))
    else (st1, .error .internal)

/-! ### Get by id -/

/-- Outcome of `GET /people/:id`: a 304, or the body with its fingerprint, or
an error. -/
inductive GetOutcome where
  | notModified
  | ok (dto : PersonDTO) (etag : String)
  | err (e : ApiError)
deriving DecidableEq, Repr

/-- The `GET /people/:id` route (`routes/people.js` lines 142-161): select the
row (`notFound` when absent), resolve contacts, compute the fingerprint from
`updated_at`, answer 304 when `if-none-match` equals it. -/
def restGet (today : DateTime) (st : Store) (id : Nat) (ifNoneMatch : Option String) :
    GetOutcome :=
  match findPerson st id with
  | none => .err .notFound
  | some p =>
      let dto := toDTO today p (contactsRowsOf st id)
      let etag := etagSingle p
      if ifNoneMatch == some etag then .notModified else .ok dto etag

/-! ### Partial update -/

/-- The validated `PATCH /people/:id` body (`personSchema` with `required`
emptied): for each scalar field the outer option is presence of the key
(`f in b`), the inner option (where the schema admits `null`) is the value;
for `contacts`, `some none` is an explicit `null` (the handler deletes all
links and, `null` not being an array, inserts none). -/
structure UpdateBody where
  name : Option String
  surname : Option String
  gender : Option (Option String)
  birthday : Option (Option CalDate)
  phone : Option (Option String)
  email : Option String
  contacts : Option (Option (List Nat))
deriving DecidableEq, Repr

/-- `updates.length > 0`: some scalar key is present in the body. -/
def UpdateBody.hasScalar (b : UpdateBody) : Bool :=
  b.name.isSome || b.surname.isSome || b.gender.isSome || b.birthday.isSome ||
    b.phone.isSome || b.email.isSome

/-- The dynamic `update person set ...` clause: present fields overwrite,
absent fields keep the row's value; the statement (and the storage trigger)
set `updated_at` — executed only when at least one scalar key is present. -/
def applyScalar (now : Nat) (b : UpdateBody) (p : PersonRow) : PersonRow :=
  if b.hasScalar then
    { p with
      name := b.name.getD p.name, surname := b.surname.getD p.surname,
      gender := b.gender.getD p.gender, birthday := b.birthday.getD p.birthday,
      phone := b.phone.getD p.phone, email := b.email.getD p.email,
      updated_at := now }
  else p

/-- The `PATCH /people/:id` route (`routes/people.js` lines 164-254).  Select
the row (`notFound` when absent); run the dynamic scalar update when some
scalar key is present (a collision of the new email with a different row is
the unique violation, mapped to `conflict`); when the `contacts` key is
present, delete all outgoing links and, for a non-empty array, count the ids
against the `person` table (`referential` on mismatch) and insert the new
links (a self-link would violate the check constraint, re-raised
uncategorised); reselect and return.  Every error path returns the pre-state:
the transaction rolls back. -/
def restUpdate (now : Nat) (today : DateTime) (st : Store) (id : Nat) (b : UpdateBody) :
    Store × Except ApiError PersonDTO :=
  if ¬ ((b.contacts.getD none).getD []).Nodup then (st, .error .validation)
  else
    match findPerson st id with
    | none => (st, .error .notFound)
    | some p =>
        if b.hasScalar && emailConflict st.persons id b.email then
          (st, .error .conflict)
        else
          let p1 := applyScalar now b p
          let persons1 := st.persons.map (fun q => if q.id == id then p1 else q)
          match b.contacts with
          | none =>
              let st1 : Store := { st with persons := persons1 }
              (st1, .ok (toDTO today p1 (contactsRowsOf st1 id)))
          | some copt =>
              let cs := copt.getD []
              if !cs.isEmpty && missingContacts persons1 cs then
                (st, .error .referential)
              else if cs.contains id then (st, .error .internal)
              else
                let st1 : Store :=
                  { persons := persons1,
                    links := st.links.filter (fun l => l.1 != id) ++
                      cs.map (fun c => (id, c)) }
                (st1, .ok (toDTO today p1 (contactsRowsOf st1 id)))

/-! ### Delete and list -/

/-- The `DELETE /people/:id` route (`routes/people.js` lines 257-262): delete
the row (`notFound` when no row was affected); the storage-layer cascade
removes every link touching the id on either side. -/
def restDelete (st : Store) (id : Nat) : Store × Except ApiError Unit :=
  match findPerson st id with
  | none => (st, .error .notFound)
  | some _ =>
      ({ persons := st.persons.filter (fun p => p.id != id),
         links := st.links.filter (fun l => l.1 != id && l.2 != id) }, .ok ())

/-- The raw query string of `GET /people`. -/
structure PageQuery where
  limit : Option Int
  offset : Option Int
deriving DecidableEq, Repr

/-- A list item (`routes/people.js` lines 301-317): the same fields as the
single-person body but with no contacts. -/
structure ListItemDTO where
  id : Nat
  name : String
  surname : String
  age : Option Int
  gender : Option String
  birthday : Option CalDate
  phone : Option String
  email : String
  created : Nat
  modified : Nat
deriving DecidableEq, Repr

def toListItemDTO (today : DateTime) (r : PersonRow) : ListItemDTO :=
  { id := r.id, name := r.name, surname := r.surname,
    age := computeAge r.birthday today, gender := r.gender,
    birthday := r.birthday, phone := r.phone, email := r.email,
    created := r.created_at, modified := r.updated_at }

/-- The `{total, limit, offset, items}` body of `GET /people`. -/
structure PeoplePage where
  total : Nat
  limit : Nat
  offset : Nat
  items : List ListItemDTO
deriving DecidableEq, Repr

/-- The query-string schema of `GET /people` (`limit` an integer in [1,100],
`offset` a non-negative integer, both optional) followed by the handler's
defaults `limit ?? 20` and `offset ?? 0`. -/
def pageParams (q : PageQuery) : Except ApiError (Nat × Nat) :=
  let lOk := match q.limit with | some l => decide (1 ≤ l ∧ l ≤ 100) | none => true
  let oOk := match q.offset with | some o => decide (0 ≤ o) | none => true
  if lOk && oOk then .ok ((q.limit.getD 20).toNat, (q.offset.getD 0).toNat)
  else .error .validation

/-- The `GET /people` route (`routes/people.js` lines 264-321): validate and
default the paging inputs, select the page `order by email asc limit $1
offset $2`, and report `total` as the full `count(*)` regardless of the
window. -/
def restList (today : DateTime) (st : Store) (q : PageQuery) :
    Except ApiError PeoplePage :=
  match pageParams q with
  | .error e => .error e
  | .ok (limit, offset) =>
      .ok { total := st.persons.length, limit := limit, offset := offset,
            items := (((sortByEmail st.persons).drop offset).take limit).map
              (toListItemDTO today) }

/-! ### Helper lemmas about the operations -/

theorem findPerson_beq {st : Store} {i : Nat} {p : PersonRow}
    (h : findPerson st i = some p) : (p.id == i) = true := by
  unfold findPerson at h
  have hh := List.find?_some h
  simpa using hh

theorem findPerson_mem {st : Store} {i : Nat} {p : PersonRow}
    (h : findPerson st i = some p) : p ∈ st.persons := by
  unfold findPerson at h
  exact List.mem_of_find?_eq_some h

/-- Replacing, in the persons list, every row keyed `i` by a row that itself
has key `i` does not change what `findPerson` sees at key `i` beyond that
replacement. -/
theorem findPerson_map_replace (l : List PersonRow) (i : Nat) (x : PersonRow)
    (hx : (x.id == i) = true) :
    (l.map (fun q => if q.id == i then x else q)).find? (fun q => q.id == i) =
      (l.find? (fun q => q.id == i)).map (fun q => if q.id == i then x else q) := by
  have hfun : ((fun q : PersonRow => q.id == i) ∘ fun q => if q.id == i then x else q) =
      (fun q : PersonRow => q.id == i) := by
    funext q
    by_cases h : (q.id == i) = true
    · simp [Function.comp, h, hx]
    · simp [Function.comp, h]
  rw [List.find?_map, hfun]

theorem applyScalar_name {now : Nat} {b : UpdateBody} (p : PersonRow) (h : b.name = none) :
    (applyScalar now b p).name = p.name := by
  unfold applyScalar; split <;> simp [h]

theorem applyScalar_surname {now : Nat} {b : UpdateBody} (p : PersonRow)
    (h : b.surname = none) : (applyScalar now b p).surname = p.surname := by
  unfold applyScalar; split <;> simp [h]

theorem applyScalar_gender {now : Nat} {b : UpdateBody} (p : PersonRow) (h : b.gender = none) :
    (applyScalar now b p).gender = p.gender := by
  unfold applyScalar; split <;> simp [h]

theorem applyScalar_birthday {now : Nat} {b : UpdateBody} (p : PersonRow)
    (h : b.birthday = none) : (applyScalar now b p).birthday = p.birthday := by
  unfold applyScalar; split <;> simp [h]

theorem applyScalar_phone {now : Nat} {b : UpdateBody} (p : PersonRow) (h : b.phone = none) :
    (applyScalar now b p).phone = p.phone := by
  unfold applyScalar; split <;> simp [h]

theorem applyScalar_email {now : Nat} {b : UpdateBody} (p : PersonRow) (h : b.email = none) :
    (applyScalar now b p).email = p.email := by
  unfold applyScalar; split <;> simp [h]

theorem applyScalar_id {now : Nat} {b : UpdateBody} (p : PersonRow) :
    (applyScalar now b p).id = p.id := by
  unfold applyScalar; split <;> rfl

/-! ### Fixtures for concrete runs -/

/-- Fixture: a stored person with email `alice@x`, last modified at 1000. -/
def rowAlice : PersonRow :=
  { id := 1, name := "Alice", surname := "Anderson", gender := none,
    birthday := none, phone := none, email := "alice@x",
    created_at := 100, updated_at := 1000 }

/-- Fixture: a second stored person, distinct id and email, same `updated_at`
millisecond value as `rowAlice`. -/
def rowBob : PersonRow :=
  { id := 2, name := "Bob", surname := "Brown", gender := none,
    birthday := none, phone := none, email := "bob@x",
    created_at := 100, updated_at := 1000 }

/-- Fixture: a two-person storage state with no contact links. -/
def stAB : Store := { persons := [rowAlice, rowBob], links := [] }

/-- Fixture: a clock reading. -/
def clock0 : DateTime := ⟨2024, 1, 1, 0, 0⟩

theorem applyScalar_of_hasScalar_false {now : Nat} {b : UpdateBody} (p : PersonRow)
    (h : b.hasScalar = false) : applyScalar now b p = p := by
  unfold applyScalar
  rw [h]
  rfl

/-- C2 counterexample: a concrete successful update whose body holds only the
`contacts` key really changes the contact-link set, yet leaves the row — hence
its `modifiedAt` and its fingerprint — untouched, because the handler only
issues `update person ... , updated_at=now()` when a scalar key is present and
the storage trigger fires only on `person`-row updates. -/
theorem contactOnly_update_fingerprint_unchanged_cex :
    ((restUpdate 2000 clock0 stAB 1
        ⟨none, none, none, none, none, none, some (some [2])⟩).2).isOk = true ∧
    (restUpdate 2000 clock0 stAB 1
        ⟨none, none, none, none, none, none, some (some [2])⟩).1.links ≠ stAB.links ∧
    (findPerson (restUpdate 2000 clock0 stAB 1
        ⟨none, none, none, none, none, none, some (some [2])⟩).1 1).map etagSingle =
      (findPerson stAB 1).map etagSingle := by
  decide

/-- C2 (amended): a successful update whose partial input contains only the
contact-set field leaves the person's row — in particular `modifiedAt` — and
therefore the single-item fingerprint exactly as they were. -/
theorem contactOnly_update_preserves_fingerprint
    (now : Nat) (today : DateTime) (st : Store) (i : Nat) (b : UpdateBody)
    (st' : Store) (dto : PersonDTO) (c : Option (List Nat))
    (hn : b.name = none) (hs : b.surname = none) (hg : b.gender = none)
    (hb : b.birthday = none) (hp : b.phone = none) (he : b.email = none)
    (hc : b.contacts = some c)
    (hres : restUpdate now today st i b = (st', Except.ok dto)) :
    findPerson st' i = findPerson st i ∧
    (findPerson st' i).map etagSingle = (findPerson st i).map etagSingle := by
  have hsc : b.hasScalar = false := by
    unfold UpdateBody.hasScalar
    rw [hn, hs, hg, hb, hp, he]
    rfl
  unfold restUpdate at hres
  rw [hc] at hres
  split at hres
  · simp [Prod.ext_iff] at hres
  · cases hfind : findPerson st i with
    | none =>
        rw [hfind] at hres
        simp [Prod.ext_iff] at hres
    | some p =>
        rw [hfind] at hres
        rw [hsc] at hres
        simp only [Bool.false_and, Bool.false_eq_true, if_false] at hres
        split at hres
        · simp [Prod.ext_iff] at hres
        · split at hres
          · simp [Prod.ext_iff] at hres
          · rw [Prod.mk.injEq] at hres
            obtain ⟨hst, _⟩ := hres
            have hx : ((applyScalar now b p).id == i) = true := by
              rw [applyScalar_id]
              exact findPerson_beq hfind
            have hap : applyScalar now b p = p := applyScalar_of_hasScalar_false p hsc
            have hfind' : findPerson st' i = some p := by
              rw [← hst]
              unfold findPerson
              rw [findPerson_map_replace _ _ _ hx]
              unfold findPerson at hfind
              rw [hfind]
              simp [findPerson_beq hfind, hap]
            simp [hfind', hfind]

/-- Witness for the amended C2 theorem at a concrete contacts-only update. -/
theorem contactOnly_update_preserves_fingerprint_witness :
    findPerson (restUpdate 2000 clock0 stAB 1
        ⟨none, none, none, none, none, none, some (some [2])⟩).1 1 = findPerson stAB 1 ∧
    (findPerson (restUpdate 2000 clock0 stAB 1
        ⟨none, none, none, none, none, none, some (some [2])⟩).1 1).map etagSingle =
      (findPerson stAB 1).map etagSingle :=
  contactOnly_update_preserves_fingerprint 2000 clock0 stAB 1
    ⟨none, none, none, none, none, none, some (some [2])⟩
    (restUpdate 2000 clock0 stAB 1
        ⟨none, none, none, none, none, none, some (some [2])⟩).1
    (toDTO clock0 rowAlice (contactsRowsOf (restUpdate 2000 clock0 stAB 1
        ⟨none, none, none, none, none, none, some (some [2])⟩).1 1))
    (some [2]) rfl rfl rfl rfl rfl rfl rfl (by decide)

/-- Fixture: a create body reusing the stored email `alice@x`. -/
def bodyDupEmail : CreateBody :=
  { name := "Eve", surname := "Evans", gender := none, birthday := none,
    phone := none, email := "alice@x", contacts := none }

/-- Fixture: a create body whose contact list names the absent id 99. -/
def bodyBadContact : CreateBody :=
  { name := "Eve", surname := "Evans", gender := none, birthday := none,
    phone := none, email := "eve@x", contacts := some [99] }

/-- C1: the two protocol surfaces do not return the same error category.  For
the same logical create against the same storage state, the resource-style
handler maps the storage unique violation to a *conflict* error
(`routes/people.js` lines 133-134), while `Mutation.createPerson`
(`graphql/resolvers.js` lines 70-95) catches nothing, so the caller receives
the re-raised raw storage error, outside the four-way taxonomy. -/
theorem create_error_category_diverges :
    (restCreate 3 5000 clock0 stAB bodyDupEmail).2 = Except.error ApiError.conflict ∧
    (gqlCreate 3 5000 clock0 stAB bodyDupEmail).2 = Except.error ApiError.internal ∧
    ApiError.internal ≠ ApiError.conflict := by
  decide

/-- C3: a create whose contact list names an absent id is rejected
referentially with no state change on the resource surface, but
`Mutation.createPerson` runs outside any transaction: the person insert
commits, the `person_contacts` insert then fails, and the person row
persists. -/
theorem gql_create_bad_contact_persists_row :
    restCreate 3 5000 clock0 stAB bodyBadContact = (stAB, Except.error ApiError.referential) ∧
    (gqlCreate 3 5000 clock0 stAB bodyBadContact).2 = Except.error ApiError.internal ∧
    (gqlCreate 3 5000 clock0 stAB bodyBadContact).1.persons.length =
      stAB.persons.length + 1 ∧
    (gqlCreate 3 5000 clock0 stAB bodyBadContact).1.persons.any
      (fun p => p.email == "eve@x") = true := by
  decide

/-- C7: in a successful partial update, every scalar field absent from the
body keeps its prior value in the returned person (the dynamic `set` clause
only names present keys), and when the `contacts` key is absent the stored
link set is left exactly as it was. -/
theorem update_frame_absent_fields
    (now : Nat) (today : DateTime) (st : Store) (i : Nat) (b : UpdateBody)
    (st' : Store) (dto : PersonDTO) (p : PersonRow)
    (hfind : findPerson st i = some p)
    (hres : restUpdate now today st i b = (st', Except.ok dto)) :
    (b.name = none → dto.name = p.name) ∧
    (b.surname = none → dto.surname = p.surname) ∧
    (b.gender = none → dto.gender = p.gender) ∧
    (b.birthday = none → dto.birthday = p.birthday) ∧
    (b.phone = none → dto.phone = p.phone) ∧
    (b.email = none → dto.email = p.email) ∧
    (b.contacts = none → st'.links = st.links) := by
  unfold restUpdate at hres
  rw [hfind] at hres
  dsimp only at hres
  split at hres
  · simp [Prod.ext_iff] at hres
  · split at hres
    · simp [Prod.ext_iff] at hres
    · cases hco : b.contacts with
      | none =>
          rw [hco] at hres
          dsimp only at hres
          rw [Prod.mk.injEq] at hres
          obtain ⟨hst, hok⟩ := hres
          injection hok with hdto
          subst hdto
          refine ⟨fun h => by simp [toDTO, applyScalar_name p h],
            fun h => by simp [toDTO, applyScalar_surname p h],
            fun h => by simp [toDTO, applyScalar_gender p h],
            fun h => by simp [toDTO, applyScalar_birthday p h],
            fun h => by simp [toDTO, applyScalar_phone p h],
            fun h => by simp [toDTO, applyScalar_email p h],
            fun _ => by rw [← hst]⟩
      | some copt =>
          rw [hco] at hres
          dsimp only at hres
          split at hres
          · simp [Prod.ext_iff] at hres
          · split at hres
            · simp [Prod.ext_iff] at hres
            · rw [Prod.mk.injEq] at hres
              obtain ⟨hst, hok⟩ := hres
              injection hok with hdto
              subst hdto
              refine ⟨fun h => by simp [toDTO, applyScalar_name p h],
                fun h => by simp [toDTO, applyScalar_surname p h],
                fun h => by simp [toDTO, applyScalar_gender p h],
                fun h => by simp [toDTO, applyScalar_birthday p h],
                fun h => by simp [toDTO, applyScalar_phone p h],
                fun h => by simp [toDTO, applyScalar_email p h],
                fun hcn => ?_⟩
              simp at hcn

/-- Fixture: an update body holding only the `phone` key. -/
def bodyPhoneOnly : UpdateBody := ⟨none, none, none, none, some (some "+1"), none, none⟩

/-- Fixture: `rowAlice` after the phone-only update at time 2000. -/
def rowAlicePhoned : PersonRow := { rowAlice with phone := some "+1", updated_at := 2000 }

/-- Fixture: the state reached from `stAB` by the phone-only update. -/
def stABPhoned : Store := { persons := [rowAlicePhoned, rowBob], links := [] }

/-- Fixture: the body returned by the phone-only update. -/
def dtoAlicePhoned : PersonDTO := toDTO clock0 rowAlicePhoned []

/-- Witness for the frame theorem: a concrete update touching only `phone`
keeps every other scalar and the link set. -/
theorem update_frame_absent_fields_witness :
    (bodyPhoneOnly.name = none → dtoAlicePhoned.name = rowAlice.name) ∧
    (bodyPhoneOnly.surname = none → dtoAlicePhoned.surname = rowAlice.surname) ∧
    (bodyPhoneOnly.gender = none → dtoAlicePhoned.gender = rowAlice.gender) ∧
    (bodyPhoneOnly.birthday = none → dtoAlicePhoned.birthday = rowAlice.birthday) ∧
    (bodyPhoneOnly.phone = none → dtoAlicePhoned.phone = rowAlice.phone) ∧
    (bodyPhoneOnly.email = none → dtoAlicePhoned.email = rowAlice.email) ∧
    (bodyPhoneOnly.contacts = none → stABPhoned.links = stAB.links) :=
  update_frame_absent_fields 2000 clock0 stAB 1 bodyPhoneOnly stABPhoned dtoAlicePhoned rowAlice
    (by decide) (by decide)

/-- With the primary key intact (no duplicate ids), looking a stored row up by
its own id finds exactly that row. -/
theorem find?_eq_of_nodup_ids {l : List PersonRow} {q : PersonRow}
    (hnd : (l.map PersonRow.id).Nodup) (hq : q ∈ l) :
    l.find? (fun p => p.id == q.id) = some q := by
  induction l with
  | nil => cases hq
  | cons a as ih =>
      rw [List.map_cons, List.nodup_cons] at hnd
      obtain ⟨hna, hnd⟩ := hnd
      cases hq with
      | head => simp [List.find?]
      | tail _ hq =>
          have hmem : q.id ∈ as.map PersonRow.id := List.mem_map_of_mem _ hq
          have hne : (a.id == q.id) = false := by
            rw [beq_eq_false_iff_ne]
            intro heq
            rw [heq] at hna
            exact hna hmem
          simp [List.find?, hne, ih hnd hq]

/-- C9: a create whose email equals a stored person's email fails with the
*conflict* category (the storage unique violation, caught and mapped at
`routes/people.js` lines 133-134), the state is unchanged (rollback), and the
stored person is still queryable with all its data. -/
theorem duplicate_email_create_conflict
    (newId now : Nat) (today : DateTime) (st : Store) (b : CreateBody) (q : PersonRow)
    (hwf : st.WF) (hq : q ∈ st.persons) (he : q.email = b.email)
    (hnd : (b.contacts.getD []).Nodup) :
    restCreate newId now today st b = (st, Except.error ApiError.conflict) ∧
    restGet today st q.id none =
      GetOutcome.ok (toDTO today q (contactsRowsOf st q.id)) (etagSingle q) := by
  have hany : st.persons.any (fun p => p.email == b.email) = true := by
    rw [List.any_eq_true]
    exact ⟨q, hq, by rw [← he]; exact beq_self_eq_true _⟩
  constructor
  · unfold restCreate
    rw [if_neg (by simpa using hnd), if_pos hany]
  · have hfq : findPerson st q.id = some q := find?_eq_of_nodup_ids hwf.1 hq
    unfold restGet
    rw [hfq]
    rfl

/-- Fixture: a create body reusing `rowBob`'s stored email. -/
def bodyDupEmailBob : CreateBody :=
  { name := "Mallory", surname := "Moore", gender := none, birthday := none,
    phone := none, email := "bob@x", contacts := none }

/-- Witness for the duplicate-email theorem at a concrete state. -/
theorem duplicate_email_create_conflict_witness :
    restCreate 7 9000 clock0 stAB bodyDupEmailBob = (stAB, Except.error ApiError.conflict) ∧
    restGet clock0 stAB rowBob.id none =
      GetOutcome.ok (toDTO clock0 rowBob (contactsRowsOf stAB rowBob.id)) (etagSingle rowBob) :=
  duplicate_email_create_conflict 7 9000 clock0 stAB bodyDupEmailBob rowBob
    (by decide) (by decide) rfl (by decide)

/-- C10: the single-item fingerprint is exactly the quoted millisecond value
of `updated_at` (`routes/people.js` line 157) and carries no person identity:
any two persons with equal `updated_at` have identical fingerprints, and a
fingerprint issued for one satisfies a conditional fetch of the other (the
handler answers 304). -/
theorem single_item_fingerprint_identityless
    (today : DateTime) (st : Store) (p q : PersonRow) (i : Nat)
    (hfq : findPerson st i = some q) (ht : p.updated_at = q.updated_at) :
    etagSingle p = "\"" ++ toString p.updated_at ++ "\"" ∧
    etagSingle p = etagSingle q ∧
    restGet today st i (some (etagSingle p)) = GetOutcome.notModified := by
  have he : etagSingle p = etagSingle q := by
    unfold etagSingle
    rw [ht]
  refine ⟨rfl, he, ?_⟩
  unfold restGet
  rw [hfq, he]
  simp

/-- Witness: `rowAlice` and `rowBob` are distinct persons with the same
`updated_at`; Alice's fingerprint satisfies a conditional fetch of Bob. -/
theorem single_item_fingerprint_identityless_witness :
    etagSingle rowAlice = "\"" ++ toString rowAlice.updated_at ++ "\"" ∧
    etagSingle rowAlice = etagSingle rowBob ∧
    restGet clock0 stAB 2 (some (etagSingle rowAlice)) = GetOutcome.notModified :=
  single_item_fingerprint_identityless clock0 stAB rowAlice rowBob 2 (by decide) rfl

/-- C8: an accepted list call returns items strictly ascending by email and a
`total` equal to the full row count independent of the window; an absent
`limit` defaults to 20, an absent `offset` to 0; a `limit` outside [1,100] or
a negative `offset` is rejected as a *validation* error. -/
theorem list_pagination_contract
    (today : DateTime) (st : Store) (q : PageQuery) (pg : PeoplePage)
    (hwf : st.WF) (hok : restList today st q = Except.ok pg) :
    pg.total = st.persons.length ∧
    pg.items.Pairwise (fun a b => emailLt a.email b.email = true) ∧
    (q.limit = none → pg.limit = 20) ∧
    (q.offset = none → pg.offset = 0) ∧
    (∀ l o, (l < 1 ∨ 100 < l) →
      restList today st ⟨some l, o⟩ = Except.error ApiError.validation) ∧
    (∀ l o, o < 0 →
      restList today st ⟨l, some o⟩ = Except.error ApiError.validation) := by
  unfold restList at hok
  cases hpp : pageParams q with
  | error e =>
      rw [hpp] at hok
      simp at hok
  | ok v =>
      obtain ⟨lim, off⟩ := v
      rw [hpp] at hok
      dsimp only at hok
      injection hok with hok
      subst hok
      refine ⟨rfl, ?_, ?_, ?_, ?_, ?_⟩
      · -- strict ascent by email on the returned window
        have hsorted := sortByEmail_pairwise st.persons
        have hperm := sortByEmail_perm st.persons
        have hemails : ((sortByEmail st.persons).map PersonRow.email).Nodup :=
          ((hperm.map PersonRow.email).symm.nodup hwf.2.1)
        have hne : (sortByEmail st.persons).Pairwise (fun a b => a.email ≠ b.email) := by
          rw [List.Nodup, List.pairwise_map] at hemails
          exact hemails
        have hlt : (sortByEmail st.persons).Pairwise
            (fun a b => emailLt a.email b.email = true) := by
          refine (hsorted.and hne).imp ?_
          intro a b hab
          unfold emailLt
          rw [hab.1, Bool.true_and, Bool.not_eq_true', beq_eq_false_iff_ne]
          exact hab.2
        have hsub : (((sortByEmail st.persons).drop off).take lim).Sublist
            (sortByEmail st.persons) :=
          (List.take_sublist _ _).trans (List.drop_sublist _ _)
        have hwin := hlt.sublist hsub
        dsimp only
        rw [List.pairwise_map]
        exact hwin
      · intro hql
        unfold pageParams at hpp
        rw [hql] at hpp
        dsimp only at hpp
        split at hpp
        · injection hpp with hpp
          rw [Prod.mk.injEq] at hpp
          exact hpp.1.symm
        · simp at hpp
      · intro hqo
        unfold pageParams at hpp
        rw [hqo] at hpp
        dsimp only at hpp
        split at hpp
        · injection hpp with hpp
          rw [Prod.mk.injEq] at hpp
          exact hpp.2.symm
        · simp at hpp
      · intro l o hl
        have hdec : decide (1 ≤ l ∧ l ≤ 100) = false := by
          rw [decide_eq_false_iff_not]
          omega
        unfold restList pageParams
        dsimp only
        rw [hdec]
        simp
      · intro l o ho
        have hdec : decide (0 ≤ o) = false := by
          rw [decide_eq_false_iff_not]
          omega
        unfold restList pageParams
        dsimp only
        rw [hdec]
        simp

/-! ### Helper lemmas for the idempotence of contact replacement -/

theorem findPerson_replaced (st : Store) (i : Nat) (p x : PersonRow)
    (links2 : List (Nat × Nat)) (hfind : findPerson st i = some p)
    (hx : (x.id == i) = true) :
    findPerson ⟨st.persons.map (fun q => if q.id == i then x else q), links2⟩ i = some x := by
  unfold findPerson
  dsimp only
  rw [findPerson_map_replace _ _ _ hx]
  unfold findPerson at hfind
  rw [hfind]
  simp [findPerson_beq hfind]
  intro hnot
  exact absurd (by simpa using findPerson_beq hfind) hnot

theorem emailConflict_map_replace (l : List PersonRow) (i : Nat) (x : PersonRow)
    (e? : Option String) (hx : (x.id == i) = true)
    (hc : emailConflict l i e? = false) :
    emailConflict (l.map (fun q => if q.id == i then x else q)) i e? = false := by
  cases e? with
  | none => rfl
  | some e =>
      simp only [emailConflict] at hc ⊢
      rw [List.any_map]
      rw [List.any_eq_false] at hc ⊢
      intro q hq
      by_cases hqi : (q.id == i) = true
      · have hxne : (x.id != i) = false := by
          rw [bne_eq_false_iff_eq]
          simpa using hx
        simp [Function.comp, hqi, hxne]
      · simp only [Function.comp, hqi, if_false]
        exact hc q hq

theorem missingContacts_map_replace (l : List PersonRow) (i : Nat) (x : PersonRow)
    (cs : List Nat) (hx : (x.id == i) = true) :
    missingContacts (l.map (fun q => if q.id == i then x else q)) cs =
      missingContacts l cs := by
  unfold missingContacts
  have hid : ∀ a : PersonRow, (if (a.id == i) = true then x else a).id = a.id := by
    intro a
    by_cases hai : (a.id == i) = true
    · rw [if_pos hai]
      have hx2 : x.id = i := by simpa using hx
      have ha2 : a.id = i := by simpa using hai
      rw [hx2, ha2]
    · rw [if_neg hai]
  have hlen : ((l.map (fun q => if q.id == i then x else q)).filter
      (fun q => cs.contains q.id)).length = (l.filter (fun q => cs.contains q.id)).length := by
    rw [← List.countP_eq_length_filter, ← List.countP_eq_length_filter, List.countP_map]
    refine List.countP_congr ?_
    intro a _
    show (cs.contains (if (a.id == i) = true then x else a).id = true) ↔ _
    rw [hid a]
  rw [hlen]

theorem replaceLinks_idempotent (links : List (Nat × Nat)) (cs : List Nat) (i : Nat) :
    ((links.filter (fun l => l.1 != i) ++ cs.map (fun c => (i, c))).filter
        (fun l => l.1 != i)) ++ cs.map (fun c => (i, c)) =
      links.filter (fun l => l.1 != i) ++ cs.map (fun c => (i, c)) := by
  have h1 : (links.filter (fun l => l.1 != i)).filter (fun l => l.1 != i) =
      links.filter (fun l => l.1 != i) := by
    induction links with
    | nil => rfl
    | cons a as ih =>
        by_cases ha : (a.1 != i) = true <;> simp [List.filter_cons, ha, ih]
  have h2 : (cs.map (fun c => (i, c))).filter (fun l => l.1 != i) = [] := by
    induction cs with
    | nil => rfl
    | cons c cst ih => simp [List.filter_cons, ih]
  rw [List.filter_append, h1, h2, List.append_nil]

/-- C6: replacing a person's contact set is idempotent.  If an update whose
body carries the `contacts` key succeeds, running the identical update again
succeeds as well and leaves the contact-link table exactly as the first run
left it (the handler deletes all outgoing links and reinserts the target
set). -/
theorem contacts_replace_idempotent
    (n1 n2 : Nat) (d1 d2 : DateTime) (st st1 : Store) (i : Nat)
    (b : UpdateBody) (dto1 : PersonDTO) (cv : Option (List Nat))
    (hc : b.contacts = some cv)
    (h1 : restUpdate n1 d1 st i b = (st1, Except.ok dto1)) :
    (restUpdate n2 d2 st1 i b).1.links = st1.links ∧
    ∃ dto2, (restUpdate n2 d2 st1 i b).2 = Except.ok dto2 := by
  unfold restUpdate at h1
  rw [hc] at h1
  split at h1
  · simp [Prod.ext_iff] at h1
  · rename_i hndd
    cases hfind : findPerson st i with
    | none =>
        rw [hfind] at h1
        dsimp only at h1
        simp [Prod.ext_iff] at h1
    | some p =>
        rw [hfind] at h1
        dsimp only at h1
        split at h1
        · simp [Prod.ext_iff] at h1
        · rename_i hconf
          split at h1
          · simp [Prod.ext_iff] at h1
          · rename_i href
            split at h1
            · simp [Prod.ext_iff] at h1
            · rename_i hself
              rw [Prod.mk.injEq] at h1
              obtain ⟨hst1, _⟩ := h1
              subst hst1
              have hbeq : (p.id == i) = true := findPerson_beq hfind
              have hx1 : ((applyScalar n1 b p).id == i) = true := by
                rw [applyScalar_id]
                exact hbeq
              have hx2 : ((applyScalar n2 b (applyScalar n1 b p)).id == i) = true := by
                rw [applyScalar_id, applyScalar_id]
                exact hbeq
              have hconf' : (b.hasScalar && emailConflict st.persons i b.email) = false := by
                rwa [Bool.not_eq_true] at hconf
              have href' : (!((cv.getD [] : List Nat)).isEmpty &&
                  missingContacts (st.persons.map
                    (fun q => if q.id == i then applyScalar n1 b p else q))
                    (cv.getD [])) = false := by
                rwa [Bool.not_eq_true] at href
              have hself' : ((cv.getD [] : List Nat)).contains i = false := by
                rwa [Bool.not_eq_true] at hself
              have hnd2 : ((cv.getD [] : List Nat)).Nodup := not_not.mp hndd
              have hcond2 : (b.hasScalar && emailConflict
                  (st.persons.map (fun q => if q.id == i then applyScalar n1 b p else q))
                  i b.email) = false := by
                cases hbs : b.hasScalar with
                | false => rw [Bool.false_and]
                | true =>
                    rw [Bool.true_and]
                    rw [hbs, Bool.true_and] at hconf'
                    exact emailConflict_map_replace st.persons i (applyScalar n1 b p)
                      b.email hx1 hconf'
              have hcond3 : (!((cv.getD [] : List Nat)).isEmpty &&
                  missingContacts ((st.persons.map
                      (fun q => if q.id == i then applyScalar n1 b p else q)).map
                    (fun q => if q.id == i then
                      applyScalar n2 b (applyScalar n1 b p) else q))
                    (cv.getD [])) = false := by
                rw [missingContacts_map_replace _ i _ _ hx2]
                exact href'
              unfold restUpdate
              rw [hc]
              dsimp only [Option.getD_some]
              rw [if_neg (not_not_intro hnd2)]
              rw [findPerson_replaced st i p (applyScalar n1 b p) _ hfind hx1]
              simp only [hcond2, hcond3, hself', Bool.false_eq_true, if_false]
              exact ⟨replaceLinks_idempotent st.links (cv.getD []) i, _, rfl⟩

/-- Fixture: an update body carrying a scalar field and the contact set. -/
def bodyNameAndContacts : UpdateBody :=
  ⟨some "Alicia", none, none, none, none, none, some (some [2])⟩

/-- Fixture: `rowAlice` after `bodyNameAndContacts` at time 3000. -/
def rowAlicia : PersonRow := { rowAlice with name := "Alicia", updated_at := 3000 }

/-- Fixture: the state reached from `stAB` by `bodyNameAndContacts`. -/
def stABLinked : Store := { persons := [rowAlicia, rowBob], links := [(1, 2)] }

/-- Witness for the idempotence theorem at a concrete replace. -/
theorem contacts_replace_idempotent_witness :
    (restUpdate 4000 clock0 stABLinked 1 bodyNameAndContacts).1.links = stABLinked.links ∧
    ∃ dto2, (restUpdate 4000 clock0 stABLinked 1 bodyNameAndContacts).2 = Except.ok dto2 :=
  contacts_replace_idempotent 3000 4000 clock0 clock0 stAB stABLinked 1
    bodyNameAndContacts (toDTO clock0 rowAlicia (contactsRowsOf stABLinked 1)) (some [2])
    rfl (by decide)

/-- Fixture: the page returned for `stAB` with default paging. -/
def pageAB : PeoplePage :=
  { total := 2, limit := 20, offset := 0,
    items := [toListItemDTO clock0 rowAlice, toListItemDTO clock0 rowBob] }

/-- Witness for the pagination contract at a concrete state and query. -/
theorem list_pagination_contract_witness :
    pageAB.total = stAB.persons.length ∧
    pageAB.items.Pairwise (fun a b => emailLt a.email b.email = true) ∧
    ((⟨none, none⟩ : PageQuery).limit = none → pageAB.limit = 20) ∧
    ((⟨none, none⟩ : PageQuery).offset = none → pageAB.offset = 0) ∧
    (∀ l o, (l < 1 ∨ 100 < l) →
      restList clock0 stAB ⟨some l, o⟩ = Except.error ApiError.validation) ∧
    (∀ l o, o < 0 →
      restList clock0 stAB ⟨l, some o⟩ = Except.error ApiError.validation) :=
  list_pagination_contract clock0 stAB ⟨none, none⟩ pageAB (by decide) (by decide)

end PeopleApi
